import Mathlib

/-!
# Verification of the RefStats card-forecasting core

Shallow embedding of the probabilistic forecasting and rule-discovery engine
of the RefStats repository (`probabilidade_cartoes_v2.py`,
`aprendizado_avancado.py`), together with theorems settling the frozen
claims about it.

Python floats are modelled as rationals (`ℚ`), Python ints as `ℤ`/`ℕ`,
Python lists as `List`, Python dicts as association lists.  Transcendental
subexpressions (`math.exp`, `math.lgamma`) are abstracted as parameters, so
every theorem quantifying over them covers the values the source computes.
-/

namespace RefStats

/-- Python's `int()` applied to a real number truncates toward zero;
on `num/den` (with `den > 0`) that is truncating integer division. -/
def pyInt (q : ℚ) : ℤ := q.num.tdiv q.den

/-! ## Distribution engine (`probabilidade_cartoes_v2.py`, lines 440–556) -/

/-- `poisson_pmf(k, lambda_)`.  The source computes
`math.exp(-lambda_) * lambda_ ** k / calcular_fatorial(k)` on the main
branch; `expNegLambda` abstracts the transcendental `math.exp(-lambda_)`. -/
def poisson_pmf (expNegLambda : ℚ) (k : ℤ) (lambda_ : ℚ) : ℚ :=
  if lambda_ ≤ 0 then (if k = 0 then 1 else 0)
  else if k < 0 then 0
  else expNegLambda * lambda_ ^ k.toNat / (Nat.factorial k.toNat : ℚ)

/-- `negative_binomial_pmf(k, r, p)`.  The `try:` block computes
`coef * p**r * (1-p)**k` via `math.lgamma`; `core` abstracts that
transcendental computation, with `none` standing for the
`ValueError`/`OverflowError` caught by the `except:` clause. -/
def negative_binomial_pmf (core : Option ℚ) (k : ℤ) (r p : ℚ) : ℚ :=
  if r ≤ 0 ∨ p ≤ 0 ∨ 1 ≤ p ∨ k < 0 then 0
  else
    match core with
    | none => 0
    | some prob => max 0 (min 1 prob)

/-- `IntervaloConfianca` (percentile fields used by `calcular_percentis`). -/
structure IntervaloConfianca where
  p10 : ℕ
  p25 : ℕ
  p50 : ℕ
  p75 : ℕ
  p90 : ℕ
  variancia_alta : Bool
deriving DecidableEq, Repr

/-- The inner helper `encontrar_percentil` of `calcular_percentis`: the
first `(k, cdf)` entry whose cdf reaches the target, falling back to the
last entry (`cdf_values[-1][0]`; the `0` default is never reached because
the caller only passes nonempty lists). -/
def encontrar_percentil (cdfValues : List (ℕ × ℚ)) (alvo : ℚ) : ℕ :=
  match cdfValues.find? (fun kc => decide (alvo ≤ kc.2)) with
  | some kc => kc.1
  | none =>
    match cdfValues.getLast? with
    | some kc => kc.1
    | none => 0

/-- `calcular_percentis(lambda_, r, usar_negbin)`.  The source obtains each
cdf value from `calcular_cdf(k, lambda_, r, usar_negbin)`, whose pmf terms
involve `math.exp`/`math.lgamma`; `cdfFn` abstracts `calcular_cdf`, so the
theorems below hold for the source's cdf in particular.  When
`int(lambda_ * 3) + 10` is negative, `range(max_k + 1)` is empty and the
Python code raises `IndexError` on `cdf_values[-1]`; this is modelled as
`none`. -/
def calcular_percentis (cdfFn : ℕ → ℚ → ℚ → Bool → ℚ) (lambda_ r : ℚ)
    (usar_negbin : Bool) : Option IntervaloConfianca :=
  let max_k : ℤ := pyInt (lambda_ * 3) + 10
  if max_k < 0 then none
  else
    let cdfValues : List (ℕ × ℚ) :=
      (List.range (max_k.toNat + 1)).map (fun k => (k, cdfFn k lambda_ r usar_negbin))
    let p10 := encontrar_percentil cdfValues (1/10)
    let p25 := encontrar_percentil cdfValues (1/4)
    let p50 := encontrar_percentil cdfValues (1/2)
    let p75 := encontrar_percentil cdfValues (3/4)
    let p90 := encontrar_percentil cdfValues (9/10)
    some { p10 := p10, p25 := p25, p50 := p50, p75 := p75, p90 := p90,
           variancia_alta := decide ((6 : ℤ) < (p90 : ℤ) - (p10 : ℤ)) }

/-! ## Lambda estimator (`probabilidade_cartoes_v2.py`, lines 759–966) -/

/-- The fields of `QualidadeDados` read by `calcular_peso_shrinkage`
(the remaining fields — sample sizes, recency, warnings — are not consumed
by any function under verification). -/
structure QualidadeDados where
  score_total : ℚ
  completude_arbitro : ℚ
  completude_times : ℚ
deriving DecidableEq, Repr

/-- `calcular_peso_shrinkage(qualidade, n_jogos_arbitro)`, first component
of the returned tuple (the second component is an explanatory string that
no verified function consumes). -/
def calcular_peso_shrinkage (qualidade : QualidadeDados) (n_jogos_arbitro : ℤ) : ℚ :=
  let w_base := qualidade.score_total / 100
  let fator_amostra : ℚ :=
    if n_jogos_arbitro ≥ 10 then 1
    else if n_jogos_arbitro ≥ 7 then 9/10
    else if n_jogos_arbitro ≥ 5 then 3/4
    else if n_jogos_arbitro ≥ 3 then 1/2
    else 3/10
  let fator_completude := (qualidade.completude_arbitro + qualidade.completude_times) / 200
  let w := w_base * fator_amostra * (1/2 + 1/2 * fator_completude)
  max (3/10) (min (19/20) w)

/-- The fields of `DadosPartida` read by steps 1–6 of `calcular_lambda`
(`baseline.media_amarelos`, the referee averages and sample count, and the
two teams' yellow-card averages).  The league/profile strings feed only the
dispersion fields of step 7, which no claim concerns. -/
structure DadosPartida where
  media_amarelos_liga : ℚ
  media_amarelos_5j : ℚ
  media_amarelos_10j : ℚ
  n_jogos_disponiveis : ℤ
  amarelos_pro_mandante : ℚ
  amarelos_pro_visitante : ℚ
deriving DecidableEq, Repr

/-- The numeric fields of `CalculoLambda` produced by steps 1–6 of
`calcular_lambda` (the model/dispersion fields of step 7 and the
explanatory strings are omitted; no claim concerns them). -/
structure CalculoLambda where
  lambda_base : ℚ
  delta_arbitro : ℚ
  delta_times : ℚ
  ajuste_recencia : ℚ
  lambda_final_raw : ℚ
  peso_shrinkage : ℚ
  lambda_shrunk : ℚ
  media_5j_arbitro : ℚ
  media_10j_arbitro : ℚ
  media_arbitro_ponderada : ℚ
  amarelos_mandante : ℚ
  amarelos_visitante : ℚ
  soma_amarelos_times : ℚ
  fator_recencia_raw : ℚ
  fator_recencia_capado : ℚ
deriving DecidableEq, Repr

/-- `calcular_lambda(partida)`, steps 1–6.  The source first computes
`qualidade = avaliar_qualidade_dados(partida)` from the raw match record;
here `qualidade` is an explicit argument, so a theorem quantifying over it
covers whatever score the source derives. -/
def calcular_lambda (partida : DadosPartida) (qualidade : QualidadeDados) : CalculoLambda :=
  -- 1) league baseline, fallback 5.0 when non-positive
  let lambda_base := if partida.media_amarelos_liga ≤ 0 then 5 else partida.media_amarelos_liga
  -- 2) referee adjustment, with the source's sequential fix-ups
  let media_5j0 := partida.media_amarelos_5j
  let media_10j0 := partida.media_amarelos_10j
  let media_5j1 := if media_5j0 ≤ 0 then media_10j0 else media_5j0
  let media_10j1 := if media_10j0 ≤ 0 then media_5j1 else media_10j0
  let media_5j := if media_5j1 ≤ 0 ∧ media_10j1 ≤ 0 then lambda_base else media_5j1
  let media_10j := if media_5j1 ≤ 0 ∧ media_10j1 ≤ 0 then lambda_base else media_10j1
  let media_arbitro_ponderada := (6/10) * media_5j + (4/10) * media_10j
  let delta_arbitro := (8/10) * (media_arbitro_ponderada - lambda_base)
  -- 3) teams adjustment
  let amarelos_mandante :=
    if partida.amarelos_pro_mandante ≤ 0 then lambda_base / 2 else partida.amarelos_pro_mandante
  let amarelos_visitante :=
    if partida.amarelos_pro_visitante ≤ 0 then lambda_base / 2 else partida.amarelos_pro_visitante
  let soma_amarelos_times := amarelos_mandante + amarelos_visitante
  let delta_times := (6/10) * (soma_amarelos_times - lambda_base)
  -- 4) recency adjustment, capped to ±5%
  let fator_recencia_raw :=
    if 0 < media_10j then 1 + (media_5j - media_10j) / media_10j else 1
  let fator_recencia_capado := max (19/20) (min (21/20) fator_recencia_raw)
  let ajuste_recencia := lambda_base * (fator_recencia_capado - 1)
  -- 5) additive raw lambda, clamped to [2, 10]
  let lambda_raw0 := lambda_base + delta_arbitro + delta_times + ajuste_recencia
  let lambda_raw := max 2 (min 10 lambda_raw0)
  -- 6) Bayesian shrinkage, clamped to [2, 10]
  let peso_w := calcular_peso_shrinkage qualidade partida.n_jogos_disponiveis
  let lambda_shrunk0 := peso_w * lambda_raw + (1 - peso_w) * lambda_base
  let lambda_shrunk := max 2 (min 10 lambda_shrunk0)
  { lambda_base := lambda_base
    delta_arbitro := delta_arbitro
    delta_times := delta_times
    ajuste_recencia := ajuste_recencia
    lambda_final_raw := lambda_raw
    peso_shrinkage := peso_w
    lambda_shrunk := lambda_shrunk
    media_5j_arbitro := media_5j
    media_10j_arbitro := media_10j
    media_arbitro_ponderada := media_arbitro_ponderada
    amarelos_mandante := amarelos_mandante
    amarelos_visitante := amarelos_visitante
    soma_amarelos_times := soma_amarelos_times
    fator_recencia_raw := fator_recencia_raw
    fator_recencia_capado := fator_recencia_capado }

/-! ## Calibrator (`probabilidade_cartoes_v2.py`, lines 563–673)

`CalibradorIsotonico` keeps two parallel lists `pontos_x`, `pontos_y`;
`treinar` immediately zips them, so the state is modelled as one list of
`(raw probability, outcome)` pairs.  `_mapa_calibracao` is a Python dict
whose every consumer (the smoothing pass and `calibrar`) reads its keys
through `sorted(...)`; it is therefore modelled directly as the key-sorted
association list.  (The `sorted(zip(...))` of the training points only
fixes that dict's insertion order, which the sorted representation
absorbs.) -/

/-- The 5-point bin of a raw probability: `int(x / 5) * 5`. -/
def bin_de (x : ℚ) : ℤ := pyInt (x / 5) * 5

/-- Mean outcome of the training points falling in bin `k`, times 100
(`sum(valores) / len(valores) * 100`). -/
def media_bin (pontos : List (ℚ × ℚ)) (k : ℤ) : ℚ :=
  let valores := (pontos.filter (fun xy => bin_de xy.1 = k)).map Prod.snd
  valores.sum / (valores.length : ℚ) * 100

/-- The single ascending smoothing pass of `treinar`: whenever the next
bin's value drops below the current one, both are replaced by their mean,
and the pass continues with the updated value (the source mutates the dict
in place while iterating over the sorted keys). -/
def suavizar_aux (anterior : ℤ × ℚ) : List (ℤ × ℚ) → List (ℤ × ℚ)
  | [] => [anterior]
  | kv :: t =>
    if kv.2 < anterior.2 then
      let media := (anterior.2 + kv.2) / 2
      (anterior.1, media) :: suavizar_aux (kv.1, media) t
    else
      anterior :: suavizar_aux kv t

/-- The smoothing pass, entered at the first sorted bin. -/
def suavizar : List (ℤ × ℚ) → List (ℤ × ℚ)
  | [] => []
  | kv :: t => suavizar_aux kv t

/-- `CalibradorIsotonico` state (the market name is an identifier label not
read by `treinar`/`calibrar` and is omitted). -/
structure CalibradorIsotonico where
  pontos : List (ℚ × ℚ)
  treinado : Bool
  mapa : Option (List (ℤ × ℚ))
deriving DecidableEq, Repr

/-- `adicionar_ponto(p_raw, acertou)`. -/
def adicionar_ponto (c : CalibradorIsotonico) (p_raw : ℚ) (acertou : Bool) :
    CalibradorIsotonico :=
  { c with pontos := c.pontos ++ [(p_raw, if acertou then 1 else 0)], treinado := false }

/-- `treinar()`: identity mapping below 10 observations; otherwise per-bin
mean hit rates followed by the single smoothing pass. -/
def treinar (c : CalibradorIsotonico) : CalibradorIsotonico :=
  if c.pontos.length < 10 then { c with mapa := none, treinado := true }
  else
    let chaves := ((c.pontos.map (fun xy => bin_de xy.1)).dedup).insertionSort (· ≤ ·)
    let mapa0 := chaves.map (fun k => (k, media_bin c.pontos k))
    { c with mapa := some (suavizar mapa0), treinado := true }

/-- The interpolation loop of `calibrar`: scans adjacent sorted bins for
`k ≤ bin_idx < k'` and interpolates linearly, falling through to `p_raw`. -/
def interpolar : List (ℤ × ℚ) → ℤ → ℚ → ℚ
  | (k1, v1) :: (k2, v2) :: t, b, p_raw =>
    if k1 ≤ b ∧ b < k2 then
      let frac := ((b - k1 : ℤ) : ℚ) / ((k2 - k1 : ℤ) : ℚ)
      (1 - frac) * v1 + frac * v2
    else interpolar ((k2, v2) :: t) b p_raw
  | _, _, p_raw => p_raw

/-- `calibrar(p_raw)`: lazy training, bin lookup, clamping outside the
trained range, linear interpolation between trained bins.  The `[]` map
case (where Python would raise `IndexError` on `chaves[0]`) is unreachable:
`treinar` never installs an empty map. -/
def calibrar (c : CalibradorIsotonico) (p_raw : ℚ) : ℚ :=
  let c' := if c.treinado then c else treinar c
  match c'.mapa with
  | none => p_raw
  | some m =>
    let bin_idx := bin_de p_raw
    match m.lookup bin_idx with
    | some v => v
    | none =>
      match m, m.getLast? with
      | (k0, v0) :: _, some (kl, vl) =>
        if bin_idx < k0 then v0
        else if kl < bin_idx then vl
        else interpolar m bin_idx p_raw
      | _, _ => p_raw

/-! ## Rule miner (`aprendizado_avancado.py`) -/

/-- `MIN_AMOSTRAS_REGRA`. -/
def MIN_AMOSTRAS_REGRA : ℕ := 8

/-- `THRESHOLD_OURO`. -/
def THRESHOLD_OURO : ℚ := 75

/-- `THRESHOLD_PLATINA`. -/
def THRESHOLD_PLATINA : ℚ := 85

/-- `THRESHOLD_DIAMANTE`. -/
def THRESHOLD_DIAMANTE : ℚ := 90

/-- `MERCADOS_EXCLUIDOS_REGRAS`. -/
def MERCADOS_EXCLUIDOS_REGRAS : List String := ["Under 5.5 Cartões"]

/-- `FATORES_ANALISE`, the 15 candidate factors, in source order. -/
def FATORES_ANALISE : List String :=
  ["faixa_lambda", "perfil_arbitro", "tipo_competicao", "faixa_qualidade",
   "variancia", "faixa_prob", "tendencia_recente", "regiao_competicao",
   "faixa_delta_arbitro", "faixa_delta_times", "faixa_peso_shrinkage",
   "faixa_media_arb_5j", "faixa_amplitude", "completude_dados", "faixa_soma_times"]

/-- The categorical attributes of `DadosPartidaAprendizado` — the only
fields the miner reads (via `getattr(r.partida, fator, None)`).  The raw
numeric fields and `calcular_fatores_derivados`, which populate these
strings, are not consumed by the mining functions themselves. -/
structure DadosPartidaAprendizado where
  faixa_lambda : String
  perfil_arbitro : String
  tipo_competicao : String
  faixa_qualidade : String
  variancia : String
  tendencia_recente : String
  regiao_competicao : String
  faixa_delta_arbitro : String
  faixa_delta_times : String
  faixa_peso_shrinkage : String
  faixa_media_arb_5j : String
  faixa_amplitude : String
  completude_dados : String
  faixa_soma_times : String
deriving DecidableEq, Repr

/-- `getattr(partida, fator, None)`.  `DadosPartidaAprendizado` has no
`faixa_prob` attribute (that bucket lives on the *result* record and is
only derived locally in `verificar_regras`), so `"faixa_prob"` — though in
`FATORES_ANALISE` — falls through to `none`, as does any unknown name. -/
def fator_valor (d : DadosPartidaAprendizado) (fator : String) : Option String :=
  if fator = "faixa_lambda" then some d.faixa_lambda
  else if fator = "perfil_arbitro" then some d.perfil_arbitro
  else if fator = "tipo_competicao" then some d.tipo_competicao
  else if fator = "faixa_qualidade" then some d.faixa_qualidade
  else if fator = "variancia" then some d.variancia
  else if fator = "tendencia_recente" then some d.tendencia_recente
  else if fator = "regiao_competicao" then some d.regiao_competicao
  else if fator = "faixa_delta_arbitro" then some d.faixa_delta_arbitro
  else if fator = "faixa_delta_times" then some d.faixa_delta_times
  else if fator = "faixa_peso_shrinkage" then some d.faixa_peso_shrinkage
  else if fator = "faixa_media_arb_5j" then some d.faixa_media_arb_5j
  else if fator = "faixa_amplitude" then some d.faixa_amplitude
  else if fator = "completude_dados" then some d.completude_dados
  else if fator = "faixa_soma_times" then some d.faixa_soma_times
  else none

/-- The fields of `ResultadoMercadoAprendizado` read by the miner. -/
structure ResultadoMercadoAprendizado where
  mercado : String
  acertou : Bool
deriving DecidableEq, Repr

/-- `RegistroAprendizado` (the timestamp is not read by the miner). -/
structure RegistroAprendizado where
  partida : DadosPartidaAprendizado
  resultado : ResultadoMercadoAprendizado
deriving DecidableEq, Repr

/-- `RegraDeOuro`.  `condicoes` is a Python dict built from a tuple of
`(factor, value)` pairs with distinct factor keys; it is modelled as the
association list in that tuple's order. -/
structure RegraDeOuro where
  id : ℕ
  mercado : String
  condicoes : List (String × String)
  total_amostras : ℕ
  acertos : ℕ
  taxa_acerto : ℚ
  nivel : String
  cor : String
  descricao : String
deriving DecidableEq, Repr

/-- `itertools.combinations(l, n)`: all `n`-element sublists, in the
source's lexicographic-by-position order. -/
def combinacoes {α : Type} : ℕ → List α → List (List α)
  | 0, _ => [[]]
  | _ + 1, [] => []
  | n + 1, x :: xs => (combinacoes n xs).map (x :: ·) ++ combinacoes (n + 1) xs

/-- The factor-extraction loop of `_testar_combinacoes`: collects
`(fator, valor)` pairs, abandoning the record (`break`, then the
`len(valores) == n_fatores` test) as soon as a factor is absent, empty or
`"Desconhecido"`. -/
def extrair_valores (r : RegistroAprendizado) : List String → Option (List (String × String))
  | [] => some []
  | f :: fs =>
    match fator_valor r.partida f with
    | none => none
    | some v =>
      if v = "" ∨ v = "Desconhecido" then none
      else (extrair_valores r fs).map (fun resto => (f, v) :: resto)

/-- `defaultdict(list)` grouping: append `x` to the entry of `chave`,
creating it at the end on first occurrence (Python dict insertion order). -/
def inserir_grupo {κ β : Type} [DecidableEq κ] :
    List (κ × List β) → κ → β → List (κ × List β)
  | [], chave, x => [(chave, [x])]
  | (c, xs) :: t, chave, x =>
    if c = chave then (c, xs ++ [x]) :: t
    else (c, xs) :: inserir_grupo t chave x

/-- `MotorAprendizado._testar_combinacoes(mercado, registros, n_fatores)`. -/
def testar_combinacoes (mercado : String) (registros : List RegistroAprendizado)
    (n_fatores : ℕ) : List RegraDeOuro :=
  (combinacoes n_fatores FATORES_ANALISE).foldl (fun regras fatores =>
    let grupos := registros.foldl (fun g r =>
      match extrair_valores r fatores with
      | none => g
      | some chave => inserir_grupo g chave r) []
    grupos.foldl (fun rs cg =>
      let grupo := cg.2
      if grupo.length < MIN_AMOSTRAS_REGRA then rs
      else
        let acertos : ℕ := (grupo.filter (fun r => r.resultado.acertou)).length
        let taxa : ℚ := (acertos : ℚ) / (grupo.length : ℚ) * 100
        if THRESHOLD_OURO ≤ taxa then
          rs ++ [{ id := 0, mercado := mercado, condicoes := cg.1,
                   total_amostras := grupo.length, acertos := acertos,
                   taxa_acerto := taxa,
                   nivel :=
                     if THRESHOLD_DIAMANTE ≤ taxa then "Diamante"
                     else if THRESHOLD_PLATINA ≤ taxa then "Platina"
                     else "Ouro",
                   cor :=
                     if THRESHOLD_DIAMANTE ≤ taxa then "#b9f2ff"
                     else if THRESHOLD_PLATINA ≤ taxa then "#e5e4e2"
                     else "#ffd700",
                   descricao := "" }]
        else rs) regras) []

/-- `MotorAprendizado._eh_subconjunto(menor, maior)`: every key of `menor`
is present in the dict `maior` with the same value. -/
def eh_subconjunto (menor maior : List (String × String)) : Bool :=
  menor.all (fun kv =>
    match maior.lookup kv.1 with
    | some v => v == kv.2
    | none => false)

/-- The sort key of `_filtrar_redundantes`: descending condition count
(`key=lambda r: -len(r.condicoes)`). -/
def regra_espec_le (a b : RegraDeOuro) : Prop :=
  b.condicoes.length ≤ a.condicoes.length

instance : DecidableRel regra_espec_le := fun a b => by
  unfold regra_espec_le; infer_instance

/-- The acceptance loop of `_filtrar_redundantes`: a rule is dropped when
its own condition set is a subset of some already-accepted rule's. -/
def filtrar_redundantes_aux (filtradas : List RegraDeOuro) :
    List RegraDeOuro → List RegraDeOuro
  | [] => filtradas
  | regra :: resto =>
    if filtradas.any (fun aceita => eh_subconjunto regra.condicoes aceita.condicoes) then
      filtrar_redundantes_aux filtradas resto
    else
      filtrar_redundantes_aux (filtradas ++ [regra]) resto

/-- `MotorAprendizado._filtrar_redundantes(regras)`.  `insertionSort` is a
stable sort, like Python's `list.sort`. -/
def filtrar_redundantes (regras : List RegraDeOuro) : List RegraDeOuro :=
  match regras with
  | [] => []
  | _ => filtrar_redundantes_aux [] (regras.insertionSort regra_espec_le)

/-- The factor-name table of `RegraDeOuro.gerar_descricao`. -/
def mapa_nomes (fator : String) : String :=
  if fator = "faixa_lambda" then "λ"
  else if fator = "perfil_arbitro" then "Árbitro"
  else if fator = "tipo_competicao" then "Tipo"
  else if fator = "faixa_qualidade" then "Qualidade"
  else if fator = "variancia" then "Variância"
  else if fator = "faixa_prob" then "Prob"
  else if fator = "tendencia_recente" then "Tendência"
  else if fator = "regiao_competicao" then "Região"
  else fator

/-- `RegraDeOuro.gerar_descricao()`. -/
def gerar_descricao (regra : RegraDeOuro) : String :=
  String.intercalate " + " (regra.condicoes.map (fun kv => mapa_nomes kv.1 ++ "=" ++ kv.2))

/-- The final sort key of `descobrir_regras`:
`key=lambda r: (-r.taxa_acerto, -r.total_amostras)`. -/
def regra_rank_le (a b : RegraDeOuro) : Prop :=
  b.taxa_acerto < a.taxa_acerto ∨
    (a.taxa_acerto = b.taxa_acerto ∧ b.total_amostras ≤ a.total_amostras)

instance : DecidableRel regra_rank_le := fun a b => by
  unfold regra_rank_le; infer_instance

/-- The id-assignment loop of `descobrir_regras`
(`for i, regra in enumerate(todas_regras, 1)`), which also fills in the
description. -/
def atribuir_ids : ℕ → List RegraDeOuro → List RegraDeOuro
  | _, [] => []
  | i, r :: t => { r with id := i, descricao := gerar_descricao r } :: atribuir_ids (i + 1) t

/-- `MotorAprendizado.descobrir_regras()` over the store's record list:
group by market, skip excluded or under-sampled markets, mine 1-, 2- and
3-factor combinations, filter redundant rules per market, rank globally
and assign ids. -/
def descobrir_regras (registros : List RegistroAprendizado) : List RegraDeOuro :=
  let por_mercado := registros.foldl (fun g r => inserir_grupo g r.resultado.mercado r) []
  let todas := por_mercado.foldl (fun todas mg =>
    if mg.1 ∈ MERCADOS_EXCLUIDOS_REGRAS then todas
    else if mg.2.length < MIN_AMOSTRAS_REGRA then todas
    else
      todas ++ filtrar_redundantes
        (testar_combinacoes mg.1 mg.2 1 ++ testar_combinacoes mg.1 mg.2 2 ++
          testar_combinacoes mg.1 mg.2 3)) []
  atribuir_ids 1 (todas.insertionSort regra_rank_le)

/-! ## Concrete instances used by the claims -/

/-- Total order instance for the specificity sort. -/
instance : IsTotal RegraDeOuro regra_espec_le :=
  ⟨fun a b => Nat.le_total b.condicoes.length a.condicoes.length⟩

/-- Transitivity instance for the specificity sort. -/
instance : IsTrans RegraDeOuro regra_espec_le :=
  ⟨fun _ _ _ hab hbc => le_trans hbc hab⟩

/-- A calibrator holding exactly 10 observations spread over the bins
0, 5 and 10: four hits at raw probability 0, three misses at 5, three
misses at 10 (bin means 100, 0, 0). -/
def calibrador10 : CalibradorIsotonico :=
  { pontos := [(0, 1), (0, 1), (0, 1), (0, 1), (5, 0), (5, 0), (5, 0),
               (10, 0), (10, 0), (10, 0)],
    treinado := false, mapa := none }

/-- The end-to-end example input: league baseline 5.4, referee averages
6.2 (last 5) and 5.0 (last 10), team yellow-card averages summing to 4.5,
with 10 referee games available. -/
def partida_exemplo : DadosPartida :=
  { media_amarelos_liga := 27/5, media_amarelos_5j := 31/5, media_amarelos_10j := 5,
    n_jogos_disponiveis := 10, amarelos_pro_mandante := 23/10,
    amarelos_pro_visitante := 11/5 }

/-- Quality input whose derived shrinkage weight is exactly 0.7
(score 70, full completeness, ≥10 referee games). -/
def qualidade_exemplo : QualidadeDados :=
  { score_total := 70, completude_arbitro := 100, completude_times := 100 }

/-- Redundancy-example rule A = {f1: v1}, support 20, hit rate 80%. -/
def regraA : RegraDeOuro :=
  { id := 0, mercado := "Over 3.5 Cartões", condicoes := [("f1", "v1")],
    total_amostras := 20, acertos := 16, taxa_acerto := 80, nivel := "Ouro",
    cor := "#ffd700", descricao := "" }

/-- Redundancy-example rule B = {f1: v1, f2: v2}, support 10,
hit rate 85%. -/
def regraB : RegraDeOuro :=
  { id := 0, mercado := "Over 3.5 Cartões", condicoes := [("f1", "v1"), ("f2", "v2")],
    total_amostras := 10, acertos := 8, taxa_acerto := 85, nivel := "Platina",
    cor := "#e5e4e2", descricao := "" }

/-- A synthetic learning record sharing the single factor
`perfil_arbitro = "Rigoroso"`; all other derived factors are empty, so the
miner skips every other factor combination. -/
def partida_sintetica : DadosPartidaAprendizado :=
  { faixa_lambda := "", perfil_arbitro := "Rigoroso", tipo_competicao := "",
    faixa_qualidade := "", variancia := "", tendencia_recente := "",
    regiao_competicao := "", faixa_delta_arbitro := "", faixa_delta_times := "",
    faixa_peso_shrinkage := "", faixa_media_arb_5j := "", faixa_amplitude := "",
    completude_dados := "", faixa_soma_times := "" }

/-- A synthetic record for the market `"Over 3.5 Cartões"` with outcome
`acertou`. -/
def registro_sintetico (acertou : Bool) : RegistroAprendizado :=
  { partida := partida_sintetica,
    resultado := { mercado := "Over 3.5 Cartões", acertou := acertou } }

/-- The 10-record corpus of the RuleMiner example: all records share
`perfil_arbitro = "Rigoroso"`, 8 hits out of 10. -/
def corpus10 : List RegistroAprendizado :=
  List.replicate 8 (registro_sintetico true) ++ List.replicate 2 (registro_sintetico false)

/-- The 7-record corpus (100% hits, below the 8-sample minimum). -/
def corpus7 : List RegistroAprendizado :=
  List.replicate 7 (registro_sintetico true)

/-- The single rule mined from `corpus10`: 1 factor, support 10, 8 hits,
80% hit rate, tier Gold. -/
def regra_sintetica : RegraDeOuro :=
  { id := 1, mercado := "Over 3.5 Cartões", condicoes := [("perfil_arbitro", "Rigoroso")],
    total_amostras := 10, acertos := 8, taxa_acerto := 80, nivel := "Ouro",
    cor := "#ffd700", descricao := "Árbitro=Rigoroso" }

/-- A calibrator holding only 3 observations — below the 10-observation
training minimum. -/
def calibrador_pequeno : CalibradorIsotonico :=
  { pontos := [(50, 1), (60, 0), (70, 1)], treinado := false, mapa := none }

/-! ## Shared computational lemmas

`Rat.add`/`mul`/`inv`/`sub` are `@[irreducible]` in the library; `unseal`
restores reducibility locally so `decide` can evaluate the embeddings on
concrete inputs. -/

unseal Rat.add Rat.mul Rat.inv Rat.sub in
/-- Training the 10-observation calibrator: bin means (100, 0, 0) become
(50, 25, 25) after the single smoothing pass. -/
theorem treinar_calibrador10_eq :
    (treinar calibrador10).mapa = some [(0, 50), (5, 25), (10, 25)] := by decide

set_option maxRecDepth 10000 in
unseal Rat.add Rat.mul Rat.inv Rat.sub in
/-- Mining the 10-record corpus yields exactly the 1-factor Gold rule. -/
theorem descobrir_corpus10_eq : descobrir_regras corpus10 = [regra_sintetica] := by decide

unseal Rat.add Rat.mul Rat.inv Rat.sub in
/-- Mining the 7-record corpus yields no rule. -/
theorem descobrir_corpus7_eq : descobrir_regras corpus7 = [] := by decide

/-! ## Claim C4: shrinkage weight and shrunk lambda bounds -/

/-- C4: for every match input (any quality score and referee sample size),
the shrinkage weight computed by `calcular_peso_shrinkage` lies in
[0.3, 0.95], and the `lambda_shrunk` field of the `CalculoLambda` returned
by `calcular_lambda` lies in [2, 10]. -/
theorem peso_e_lambda_shrunk_limites (qualidade : QualidadeDados) (n : ℤ)
    (partida : DadosPartida) :
    (3/10 ≤ calcular_peso_shrinkage qualidade n ∧
      calcular_peso_shrinkage qualidade n ≤ 19/20) ∧
    (2 ≤ (calcular_lambda partida qualidade).lambda_shrunk ∧
      (calcular_lambda partida qualidade).lambda_shrunk ≤ 10) := by
  refine ⟨⟨le_max_left _ _, ?_⟩, ?_, ?_⟩
  · exact max_le (by norm_num) (min_le_left _ _)
  · simp only [calcular_lambda]
    exact le_max_left _ _
  · simp only [calcular_lambda]
    exact max_le (by norm_num) (min_le_left _ _)

/-! ## Claim C7: degenerate cases of the pmfs -/

/-- C7: `poisson_pmf` returns 1 for λ ≤ 0, k = 0 and 0 for λ ≤ 0, k ≠ 0;
`negative_binomial_pmf` returns 0 whenever r ≤ 0, p ∉ (0,1) or k < 0; and
an overflow in the log-gamma computation (the `none` core, i.e. the caught
`OverflowError`) yields probability 0 rather than an exception. -/
theorem pmf_casos_degenerados :
    (∀ (e : ℚ) (k : ℤ) (lam : ℚ), lam ≤ 0 →
      poisson_pmf e k lam = if k = 0 then 1 else 0) ∧
    (∀ (core : Option ℚ) (k : ℤ) (r p : ℚ), r ≤ 0 ∨ p ≤ 0 ∨ 1 ≤ p ∨ k < 0 →
      negative_binomial_pmf core k r p = 0) ∧
    (∀ (k : ℤ) (r p : ℚ), negative_binomial_pmf none k r p = 0) := by
  refine ⟨fun e k lam h => ?_, fun core k r p h => ?_, fun k r p => ?_⟩
  · simp [poisson_pmf, h]
  · simp [negative_binomial_pmf, h]
  · unfold negative_binomial_pmf
    split <;> rfl

/-- Witness for C7 at concrete inputs. -/
theorem pmf_casos_degenerados_witness :
    poisson_pmf 1 0 (-1) = 1 ∧ poisson_pmf 1 2 (-1) = 0 ∧
    negative_binomial_pmf (some (1/2)) 3 (-1) (1/2) = 0 ∧
    negative_binomial_pmf none 3 2 (1/2) = 0 := by
  refine ⟨?_, ?_, ?_, pmf_casos_degenerados.2.2 3 2 (1/2)⟩
  · simpa using pmf_casos_degenerados.1 1 0 (-1) (by norm_num)
  · simpa using pmf_casos_degenerados.1 1 2 (-1) (by norm_num)
  · exact pmf_casos_degenerados.2.1 (some (1/2)) 3 (-1) (1/2) (Or.inl (by norm_num))

/-! ## Claim C9: the end-to-end lambda example -/

unseal Rat.add Rat.mul Rat.inv Rat.sub in
/-- C9 counterexample: on the example input the exact shrunk lambda is
5.3902, not 5.39 — the claimed value `0.7 × 5.386 + 0.3 × 5.4 = 5.39` is a
two-decimal rounding, and the pipeline's exact output differs from it. -/
theorem calcular_lambda_exemplo_contraexemplo :
    (calcular_lambda partida_exemplo qualidade_exemplo).peso_shrinkage = 7/10 ∧
    (calcular_lambda partida_exemplo qualidade_exemplo).lambda_shrunk = 26951/5000 ∧
    ¬ (calcular_lambda partida_exemplo qualidade_exemplo).lambda_shrunk = 539/100 := by
  refine ⟨by decide, by decide, ?_⟩
  intro h
  rw [show (calcular_lambda partida_exemplo qualidade_exemplo).lambda_shrunk
      = 26951/5000 from by decide] at h
  norm_num at h

unseal Rat.add Rat.mul Rat.inv Rat.sub in
/-- C9 amended: the pipeline values on the example input — weighted referee
average 5.72, Δ_referee 0.256, Δ_teams −0.54, raw recency factor 1.24
capped to 1.05, Δ_recency 0.27, λ_raw 5.386, shrinkage weight 0.7 and
λ_shrunk = 0.7 × 5.386 + 0.3 × 5.4 = 5.3902 (which rounds to 5.39). -/
theorem calcular_lambda_exemplo :
    (calcular_lambda partida_exemplo qualidade_exemplo).media_arbitro_ponderada = 143/25 ∧
    (calcular_lambda partida_exemplo qualidade_exemplo).delta_arbitro = 32/125 ∧
    (calcular_lambda partida_exemplo qualidade_exemplo).delta_times = -(27/50) ∧
    (calcular_lambda partida_exemplo qualidade_exemplo).fator_recencia_raw = 31/25 ∧
    (calcular_lambda partida_exemplo qualidade_exemplo).fator_recencia_capado = 21/20 ∧
    (calcular_lambda partida_exemplo qualidade_exemplo).ajuste_recencia = 27/100 ∧
    (calcular_lambda partida_exemplo qualidade_exemplo).lambda_final_raw = 2693/500 ∧
    (calcular_lambda partida_exemplo qualidade_exemplo).peso_shrinkage = 7/10 ∧
    (calcular_lambda partida_exemplo qualidade_exemplo).lambda_shrunk = 26951/5000 := by
  decide

/-! ## Claim C3: the redundancy example keeps exactly one rule -/

unseal Rat.add Rat.mul Rat.inv Rat.sub in
/-- C3: filtering the pair [A = {f1:v1}, B = {f1:v1, f2:v2}] returns
exactly one rule, namely the more specific B (A is discarded because its
condition set is a subset of the already-accepted B's). -/
theorem filtrar_redundantes_exemplo_sobrevivente :
    filtrar_redundantes [regraA, regraB] = [regraB] ∧
    (filtrar_redundantes [regraA, regraB]).length = 1 := by
  refine ⟨by decide, by decide⟩

/-! ## Claim C2 counterexample -/

unseal Rat.add Rat.mul Rat.inv Rat.sub in
/-- C2 counterexample: rule A is discarded from [A, B] although the
accepted rule B's condition set is *not* a subset of A's — the implemented
test is the reverse of the claimed one (A's own set is a subset of B's). -/
theorem filtrar_redundantes_direcao_contraexemplo :
    filtrar_redundantes [regraA, regraB] = [regraB] ∧
    eh_subconjunto regraB.condicoes regraA.condicoes = false ∧
    eh_subconjunto regraA.condicoes regraB.condicoes = true := by
  refine ⟨by decide, by decide, by decide⟩

/-! ## Claim C1 counterexample -/

unseal Rat.add Rat.mul Rat.inv Rat.sub in
/-- C1 counterexample: the calibrator trained on 10 observations with bin
means (100, 0, 0) produces the map {0: 50, 5: 25, 10: 25}; bins 0 < 5 have
calibrated values 50 > 25, so the trained values are not non-decreasing. -/
theorem treinar_nao_monotono_contraexemplo :
    calibrador10.pontos.length = 10 ∧
    (treinar calibrador10).mapa = some [(0, 50), (5, 25), (10, 25)] ∧
    ¬ ((50 : ℚ) ≤ 25) := by
  exact ⟨by decide, treinar_calibrador10_eq, by norm_num⟩

/-! ## Claim C5: identity calibration below 10 observations -/

/-- C5: for every calibrator whose observation list holds fewer than 10
points, `calibrar` returns the raw probability unchanged — both on an
untrained state (which trains lazily) and after an explicit `treinar`
(which installs the identity mapping).  These are the only states reachable
with fewer than 10 points: `adicionar_ponto` always resets `treinado`. -/
theorem calibrar_identidade_poucas_observacoes (c : CalibradorIsotonico) (p : ℚ)
    (h : c.pontos.length < 10) :
    calibrar { c with treinado := false } p = p ∧ calibrar (treinar c) p = p := by
  constructor
  · simp [calibrar, treinar, h]
  · simp [calibrar, treinar, h]

/-- Witness for C5 at the 3-observation calibrator and raw probability 42. -/
theorem calibrar_identidade_poucas_observacoes_witness :
    calibrador_pequeno.pontos.length < 10 ∧
    calibrar { calibrador_pequeno with treinado := false } 42 = 42 ∧
    calibrar (treinar calibrador_pequeno) 42 = 42 :=
  ⟨by decide, calibrar_identidade_poucas_observacoes calibrador_pequeno 42 (by decide)⟩

/-! ## Claim C1 amended: what the single smoothing pass guarantees -/

/-- The smoothed list is one entry longer than the remaining input. -/
theorem suavizar_aux_length (l : List (ℤ × ℚ)) :
    ∀ a, (suavizar_aux a l).length = l.length + 1 := by
  induction l with
  | nil => intro a; rfl
  | cons kv t ih =>
    intro a
    unfold suavizar_aux
    split <;> simp [ih]

/-- Dropping to the last two entries commutes with consing when at least
two entries remain. -/
theorem drop_penultimo_cons (x : ℚ) (s : List ℚ) (h : 2 ≤ s.length) :
    (x :: s).drop ((x :: s).length - 2) = s.drop (s.length - 2) := by
  have h1 : (x :: s).length - 2 = (s.length - 2) + 1 := by
    simp only [List.length_cons]; omega
  rw [h1, List.drop_succ_cons]

/-- After the smoothing pass, the final adjacent pair of values is
non-decreasing. -/
theorem suavizar_aux_ultimo_par (l : List (ℤ × ℚ)) :
    ∀ a, List.Chain' (· ≤ ·)
      (((suavizar_aux a l).map Prod.snd).drop
        (((suavizar_aux a l).map Prod.snd).length - 2)) := by
  induction l with
  | nil =>
    intro a
    simp [suavizar_aux]
  | cons kv t ih =>
    intro a
    unfold suavizar_aux
    split
    · cases t with
      | nil =>
        simp [suavizar_aux, List.chain'_cons]
      | cons kv2 t2 =>
        have hlen : 2 ≤ ((suavizar_aux (kv.1, (a.2 + kv.2) / 2) (kv2 :: t2)).map Prod.snd).length := by
          simp [suavizar_aux_length]
        simp only [List.map_cons]
        rw [drop_penultimo_cons _ _ hlen]
        exact ih _
    · cases t with
      | nil =>
        rename_i hnlt
        simp only [suavizar_aux, List.map_cons, List.map_nil]
        simp [List.chain'_cons, le_of_not_lt hnlt]
      | cons kv2 t2 =>
        have hlen : 2 ≤ ((suavizar_aux kv (kv2 :: t2)).map Prod.snd).length := by
          simp [suavizar_aux_length]
        simp only [List.map_cons]
        rw [drop_penultimo_cons _ _ hlen]
        exact ih _

/-- The final-pair property for the full pass. -/
theorem suavizar_ultimo_par (l : List (ℤ × ℚ)) :
    List.Chain' (· ≤ ·)
      (((suavizar l).map Prod.snd).drop (((suavizar l).map Prod.snd).length - 2)) := by
  cases l with
  | nil => simp [suavizar]
  | cons kv t => exact suavizar_aux_ultimo_par t kv

/-- A smoothed map with at most two bins is entirely non-decreasing. -/
theorem suavizar_ate_dois (l : List (ℤ × ℚ)) (h : (suavizar l).length ≤ 2) :
    List.Chain' (· ≤ ·) ((suavizar l).map Prod.snd) := by
  have hp := suavizar_ultimo_par l
  have h0 : ((suavizar l).map Prod.snd).length - 2 = 0 := by
    simp only [List.length_map]; omega
  rwa [h0, List.drop_zero] at hp

/-- C1 amended: after training on at least 10 observations, the single
ascending smoothing pass guarantees that the *last* adjacent pair of bin
values is non-decreasing, and that the whole map is non-decreasing whenever
it has at most two bins; with three or more bins an earlier adjacent pair
may still decrease (see the counterexample), so the claimed global
monotonicity does not hold. -/
theorem treinar_suavizacao_parcial (c : CalibradorIsotonico)
    (hc : 10 ≤ c.pontos.length) (m : List (ℤ × ℚ))
    (hm : (treinar c).mapa = some m) :
    List.Chain' (· ≤ ·) ((m.map Prod.snd).drop ((m.map Prod.snd).length - 2)) ∧
    (m.length ≤ 2 → List.Chain' (· ≤ ·) (m.map Prod.snd)) := by
  unfold treinar at hm
  rw [if_neg (by omega)] at hm
  simp only [Option.some.injEq] at hm
  subst hm
  exact ⟨suavizar_ultimo_par _, fun hlen => suavizar_ate_dois _ hlen⟩

/-- Witness for C1 amended at the 10-observation calibrator. -/
theorem treinar_suavizacao_parcial_witness :
    List.Chain' (· ≤ ·)
      ((([(0, (50 : ℚ)), (5, 25), (10, 25)] : List (ℤ × ℚ)).map Prod.snd).drop
        ((([(0, (50 : ℚ)), (5, 25), (10, 25)] : List (ℤ × ℚ)).map Prod.snd).length - 2)) ∧
    (([(0, (50 : ℚ)), (5, 25), (10, 25)] : List (ℤ × ℚ)).length ≤ 2 →
      List.Chain' (· ≤ ·) (([(0, (50 : ℚ)), (5, 25), (10, 25)] : List (ℤ × ℚ)).map Prod.snd)) :=
  treinar_suavizacao_parcial calibrador10 (by decide) _ treinar_calibrador10_eq

/-! ## Claim C6: percentile ordering and the high-variance flag -/

/-- `encontrar_percentil` on a nonempty list returns the first component of
one of its entries. -/
theorem encontrar_percentil_mem (l : List (ℕ × ℚ)) (alvo : ℚ) (h : l ≠ []) :
    ∃ kc ∈ l, encontrar_percentil l alvo = kc.1 := by
  unfold encontrar_percentil
  cases hf : l.find? (fun kc => decide (alvo ≤ kc.2)) with
  | some kc => exact ⟨kc, List.mem_of_find?_eq_some hf, rfl⟩
  | none =>
    rw [List.getLast?_eq_getLast_of_ne_nil h]
    exact ⟨l.getLast h, List.getLast_mem h, rfl⟩

/-- The percentile finder is monotone in the target probability whenever
the scanned entries carry non-decreasing indices. -/
theorem encontrar_percentil_mono (l : List (ℕ × ℚ))
    (hpw : l.Pairwise (fun a b => a.1 ≤ b.1)) {p q : ℚ} (hpq : p ≤ q) :
    encontrar_percentil l p ≤ encontrar_percentil l q := by
  induction l with
  | nil => simp [encontrar_percentil]
  | cons x t ih =>
    by_cases hqx : q ≤ x.2
    · have hpx : p ≤ x.2 := le_trans hpq hqx
      unfold encontrar_percentil
      rw [List.find?_cons_of_pos _ (by simpa using hpx),
        List.find?_cons_of_pos _ (by simpa using hqx)]
    · by_cases hpx : p ≤ x.2
      · have h1 : encontrar_percentil (x :: t) p = x.1 := by
          unfold encontrar_percentil
          rw [List.find?_cons_of_pos _ (by simpa using hpx)]
        obtain ⟨kc, hmem, heq⟩ := encontrar_percentil_mem (x :: t) q (by simp)
        rw [h1, heq]
        rcases List.mem_cons.mp hmem with h | h
        · rw [h]
        · exact (List.pairwise_cons.mp hpw).1 kc h
      · cases t with
        | nil =>
          unfold encontrar_percentil
          rw [List.find?_cons_of_neg _ (by simpa using hpx),
            List.find?_cons_of_neg _ (by simpa using hqx)]
          simp
        | cons y t2 =>
          have hstep : ∀ r : ℚ, ¬ r ≤ x.2 →
              encontrar_percentil (x :: y :: t2) r = encontrar_percentil (y :: t2) r := by
            intro r hr
            unfold encontrar_percentil
            rw [List.find?_cons_of_neg _ (by simpa using hr), List.getLast?_cons_cons]
          rw [hstep p hpx, hstep q hqx]
          exact ih (List.pairwise_cons.mp hpw).2

/-- C6: whenever `calcular_percentis` returns an interval — for every
abstracted cdf, λ, r and model flag — its percentiles satisfy
p10 ≤ p25 ≤ p50 ≤ p75 ≤ p90, and the high-variance flag is true exactly
when p90 − p10 > 6. -/
theorem calcular_percentis_monotono (cdfFn : ℕ → ℚ → ℚ → Bool → ℚ) (lambda_ r : ℚ)
    (nb : Bool) (ic : IntervaloConfianca)
    (h : calcular_percentis cdfFn lambda_ r nb = some ic) :
    (ic.p10 ≤ ic.p25 ∧ ic.p25 ≤ ic.p50 ∧ ic.p50 ≤ ic.p75 ∧ ic.p75 ≤ ic.p90) ∧
    (ic.variancia_alta = true ↔ (6 : ℤ) < (ic.p90 : ℤ) - (ic.p10 : ℤ)) := by
  unfold calcular_percentis at h
  by_cases hneg : pyInt (lambda_ * 3) + 10 < 0
  · rw [if_pos hneg] at h
    exact absurd h (by simp)
  · rw [if_neg hneg] at h
    simp only [Option.some.injEq] at h
    subst h
    have hpw : (List.map (fun k => (k, cdfFn k lambda_ r nb))
        (List.range ((pyInt (lambda_ * 3) + 10).toNat + 1))).Pairwise
        (fun a b => a.1 ≤ b.1) := by
      rw [List.pairwise_map]
      exact (List.pairwise_lt_range _).imp le_of_lt
    refine ⟨⟨?_, ?_, ?_, ?_⟩, ?_⟩
    · exact encontrar_percentil_mono _ hpw (by norm_num)
    · exact encontrar_percentil_mono _ hpw (by norm_num)
    · exact encontrar_percentil_mono _ hpw (by norm_num)
    · exact encontrar_percentil_mono _ hpw (by norm_num)
    · exact decide_eq_true_iff

unseal Rat.add Rat.mul Rat.inv Rat.sub in
/-- Witness for C6 with the cdf `k ↦ k` and λ = 0: the interval is
(1, 1, 1, 1, 1) with the high-variance flag off. -/
theorem calcular_percentis_monotono_witness :
    (((1 : ℕ) ≤ 1 ∧ (1 : ℕ) ≤ 1 ∧ (1 : ℕ) ≤ 1 ∧ (1 : ℕ) ≤ 1) ∧
      (false = true ↔ (6 : ℤ) < (1 : ℤ) - (1 : ℤ))) :=
  calcular_percentis_monotono (fun k _ _ _ => (k : ℚ)) 0 3 true
    ⟨1, 1, 1, 1, 1, false⟩ (by decide)

/-! ## Claims C8 and C10: invariants of the discovered rule set -/

/-- Fold invariant: a member of a `foldl` that only ever extends its
accumulator is either an original accumulator member or satisfies the
property established at each step. -/
theorem foldl_mem_invariant {α β : Type} (Q : β → Prop) :
    ∀ (l : List α) (f : List β → α → List β) (acc : List β) (b : β),
      b ∈ l.foldl f acc →
      (∀ acc' x, x ∈ l → ∀ b' ∈ f acc' x, b' ∈ acc' ∨ Q b') →
      b ∈ acc ∨ Q b := by
  intro l
  induction l with
  | nil => intro f acc b hb _; exact Or.inl hb
  | cons x t ih =>
    intro f acc b hb hf
    rcases ih f (f acc x) b hb (fun acc' y hy => hf acc' y (List.mem_cons_of_mem _ hy)) with h | h
    · exact hf acc x (List.mem_cons_self _ _) b h
    · exact Or.inr h

/-- `DadosPartidaAprendizado` has no `faixa_prob` attribute, so the
modelled `getattr` yields `None` on it for every record. -/
theorem fator_valor_faixa_prob (d : DadosPartidaAprendizado) :
    fator_valor d "faixa_prob" = none := rfl

/-- Every pair in a successfully extracted key comes from the record's own
factor attributes. -/
theorem extrair_valores_fator :
    ∀ (fatores : List String) (reg : RegistroAprendizado) (chave : List (String × String)),
      extrair_valores reg fatores = some chave →
      ∀ kv ∈ chave, fator_valor reg.partida kv.1 = some kv.2 := by
  intro fatores
  induction fatores with
  | nil =>
    intro reg chave h kv hkv
    unfold extrair_valores at h
    simp only [Option.some.injEq] at h
    subst h
    simp at hkv
  | cons f fs ih =>
    intro reg chave h kv hkv
    unfold extrair_valores at h
    cases hf : fator_valor reg.partida f with
    | none => rw [hf] at h; exact absurd h (by simp)
    | some v =>
      simp only [hf] at h
      split at h
      · exact absurd h (by simp)
      · cases hrest : extrair_valores reg fs with
        | none => rw [hrest] at h; exact absurd h (by simp)
        | some resto =>
          rw [hrest] at h
          have h2 : (f, v) :: resto = chave := by simpa using h
          subst h2
          rcases List.mem_cons.mp hkv with h' | h'
          · rw [h']; exact hf
          · exact ih reg resto hrest kv h' 

/-- Every entry of `inserir_grupo` either carries the inserted key or the
key of an existing entry. -/
theorem inserir_grupo_chave {κ β : Type} [DecidableEq κ] :
    ∀ (g : List (κ × List β)) (chave : κ) (x : β),
      ∀ cg ∈ inserir_grupo g chave x, cg.1 = chave ∨ ∃ cg0 ∈ g, cg.1 = cg0.1 := by
  intro g
  induction g with
  | nil =>
    intro chave x cg h
    unfold inserir_grupo at h
    simp only [List.mem_singleton] at h
    subst h
    exact Or.inl rfl
  | cons e t ih =>
    intro chave x cg h
    unfold inserir_grupo at h
    split at h
    · rcases List.mem_cons.mp h with h | h
      · subst h
        exact Or.inl (by assumption)
      · exact Or.inr ⟨cg, List.mem_cons_of_mem _ h, rfl⟩
    · rcases List.mem_cons.mp h with h | h
      · subst h
        exact Or.inr ⟨e, List.mem_cons_self _ _, rfl⟩
      · rcases ih chave x cg h with h' | ⟨cg0, hcg0, he⟩
        · exact Or.inl h'
        · exact Or.inr ⟨cg0, List.mem_cons_of_mem _ hcg0, he⟩

/-- Every group key produced by the grouping fold of `_testar_combinacoes`
is a successful extraction from some record. -/
theorem agrupar_registros_chave (fatores : List String) :
    ∀ (registros : List RegistroAprendizado)
      (g0 : List (List (String × String) × List RegistroAprendizado)),
      (∀ cg ∈ g0, ∃ reg : RegistroAprendizado, extrair_valores reg fatores = some cg.1) →
      ∀ cg ∈ registros.foldl (fun g r =>
          match extrair_valores r fatores with
          | none => g
          | some chave => inserir_grupo g chave r) g0,
        ∃ reg : RegistroAprendizado, extrair_valores reg fatores = some cg.1 := by
  intro registros
  induction registros with
  | nil => intro g0 h0; exact h0
  | cons r t ih =>
    intro g0 h0 cg hcg
    refine ih _ ?_ cg hcg
    intro cg' hcg'
    dsimp only at hcg'
    split at hcg'
    · exact h0 cg' hcg'
    · rename_i chave hex
      rcases inserir_grupo_chave g0 chave r cg' hcg' with h | ⟨cg0, hcg0, he⟩
      · exact ⟨r, by rw [h]; exact hex⟩
      · obtain ⟨reg, hreg⟩ := h0 cg0 hcg0
        exact ⟨reg, by rw [he]; exact hreg⟩

/-- Every rule emitted by `_testar_combinacoes` meets the support and
hit-rate thresholds, carries the tier dictated by its hit rate, and its
conditions all come from actual record attributes. -/
theorem testar_combinacoes_phi (mercado : String) (registros : List RegistroAprendizado)
    (n : ℕ) :
    ∀ r ∈ testar_combinacoes mercado registros n,
      (MIN_AMOSTRAS_REGRA ≤ r.total_amostras ∧ THRESHOLD_OURO ≤ r.taxa_acerto ∧
        r.nivel = (if THRESHOLD_DIAMANTE ≤ r.taxa_acerto then "Diamante"
          else if THRESHOLD_PLATINA ≤ r.taxa_acerto then "Platina" else "Ouro")) ∧
      (∀ kv ∈ r.condicoes,
        ∃ reg : RegistroAprendizado, fator_valor reg.partida kv.1 = some kv.2) := by
  intro r hr
  unfold testar_combinacoes at hr
  have main := (foldl_mem_invariant
    (fun r => (MIN_AMOSTRAS_REGRA ≤ r.total_amostras ∧ THRESHOLD_OURO ≤ r.taxa_acerto ∧
        r.nivel = (if THRESHOLD_DIAMANTE ≤ r.taxa_acerto then "Diamante"
          else if THRESHOLD_PLATINA ≤ r.taxa_acerto then "Platina" else "Ouro")) ∧
      (∀ kv ∈ r.condicoes,
        ∃ reg : RegistroAprendizado, fator_valor reg.partida kv.1 = some kv.2))
    _ _ _ r hr ?step).resolve_left (by simp)
  exact main
  case step =>
  intro acc fatores _ b hb
  dsimp only at hb
  refine foldl_mem_invariant
    (fun r => (MIN_AMOSTRAS_REGRA ≤ r.total_amostras ∧ THRESHOLD_OURO ≤ r.taxa_acerto ∧
        r.nivel = (if THRESHOLD_DIAMANTE ≤ r.taxa_acerto then "Diamante"
          else if THRESHOLD_PLATINA ≤ r.taxa_acerto then "Platina" else "Ouro")) ∧
      (∀ kv ∈ r.condicoes,
        ∃ reg : RegistroAprendizado, fator_valor reg.partida kv.1 = some kv.2))
    _ _ _ b hb ?_
  intro rs cg hcgmem b' hb'
  split at hb'
  · exact Or.inl hb'
  · split at hb'
    · rcases List.mem_append.mp hb' with h | h
      · exact Or.inl h
      · rw [List.mem_singleton] at h
        subst h
        refine Or.inr ⟨⟨Nat.le_of_not_lt (by assumption), by assumption, rfl⟩, ?_⟩
        intro kv hkv
        obtain ⟨reg, hreg⟩ :=
          agrupar_registros_chave fatores registros [] (by simp) cg hcgmem
        exact ⟨reg, extrair_valores_fator fatores reg cg.1 hreg kv hkv⟩
    · exact Or.inl hb'

/-- Members of the redundancy-filter accumulator loop come from the
accumulator or the remaining input. -/
theorem filtrar_redundantes_aux_mem :
    ∀ (l acc : List RegraDeOuro) (r : RegraDeOuro),
      r ∈ filtrar_redundantes_aux acc l → r ∈ acc ∨ r ∈ l := by
  intro l
  induction l with
  | nil => intro acc r h; exact Or.inl h
  | cons x t ih =>
    intro acc r h
    unfold filtrar_redundantes_aux at h
    split at h
    · rcases ih acc r h with h' | h'
      · exact Or.inl h'
      · exact Or.inr (List.mem_cons_of_mem _ h')
    · rcases ih (acc ++ [x]) r h with h' | h'
      · rcases List.mem_append.mp h' with h'' | h''
        · exact Or.inl h''
        · exact Or.inr (List.mem_cons.mpr (Or.inl (List.mem_singleton.mp h'')))
      · exact Or.inr (List.mem_cons_of_mem _ h')

/-- The redundancy filter only keeps rules that were already candidates. -/
theorem filtrar_redundantes_mem (regras : List RegraDeOuro) :
    ∀ r ∈ filtrar_redundantes regras, r ∈ regras := by
  intro r h
  cases hre : regras with
  | nil => rw [hre] at h; simp [filtrar_redundantes] at h
  | cons x t =>
    rw [hre] at h
    unfold filtrar_redundantes at h
    rcases filtrar_redundantes_aux_mem _ [] r h with h' | h'
    · exact absurd h' (by simp)
    · rw [← hre] at h' ⊢
      exact (List.perm_insertionSort regra_espec_le regras).subset h'

/-- The id-assignment pass only renumbers and describes; all other fields
of each rule are preserved. -/
theorem atribuir_ids_campos :
    ∀ (l : List RegraDeOuro) (i : ℕ) (r' : RegraDeOuro), r' ∈ atribuir_ids i l →
      ∃ r ∈ l, r'.mercado = r.mercado ∧ r'.condicoes = r.condicoes ∧
        r'.total_amostras = r.total_amostras ∧ r'.acertos = r.acertos ∧
        r'.taxa_acerto = r.taxa_acerto ∧ r'.nivel = r.nivel := by
  intro l
  induction l with
  | nil => intro i r' h; simp [atribuir_ids] at h
  | cons x t ih =>
    intro i r' h
    unfold atribuir_ids at h
    rcases List.mem_cons.mp h with h' | h'
    · subst h'
      exact ⟨x, List.mem_cons_self _ _, rfl, rfl, rfl, rfl, rfl, rfl⟩
    · obtain ⟨r, hr, hf⟩ := ih (i + 1) r' h'
      exact ⟨r, List.mem_cons_of_mem _ hr, hf⟩

/-- Every rule returned by `descobrir_regras` meets the thresholds, carries
the tier dictated by its hit rate, and draws all its conditions from actual
record attributes. -/
theorem descobrir_regras_phi (registros : List RegistroAprendizado) :
    ∀ r ∈ descobrir_regras registros,
      (MIN_AMOSTRAS_REGRA ≤ r.total_amostras ∧ THRESHOLD_OURO ≤ r.taxa_acerto ∧
        r.nivel = (if THRESHOLD_DIAMANTE ≤ r.taxa_acerto then "Diamante"
          else if THRESHOLD_PLATINA ≤ r.taxa_acerto then "Platina" else "Ouro")) ∧
      (∀ kv ∈ r.condicoes,
        ∃ reg : RegistroAprendizado, fator_valor reg.partida kv.1 = some kv.2) := by
  intro r' hr'
  unfold descobrir_regras at hr'
  obtain ⟨r, hr, hmerc, hcond, htot, hac, htaxa, hnivel⟩ :=
    atribuir_ids_campos _ 1 r' hr'
  have hr2 := (List.perm_insertionSort regra_rank_le _).subset hr
  have main := (foldl_mem_invariant
    (fun r => (MIN_AMOSTRAS_REGRA ≤ r.total_amostras ∧ THRESHOLD_OURO ≤ r.taxa_acerto ∧
        r.nivel = (if THRESHOLD_DIAMANTE ≤ r.taxa_acerto then "Diamante"
          else if THRESHOLD_PLATINA ≤ r.taxa_acerto then "Platina" else "Ouro")) ∧
      (∀ kv ∈ r.condicoes,
        ∃ reg : RegistroAprendizado, fator_valor reg.partida kv.1 = some kv.2))
    _ _ _ r hr2 ?step).resolve_left (by simp)
  rw [hcond, htot, htaxa, hnivel]
  exact main
  case step =>
  intro acc mg _ b hb
  split at hb
  · exact Or.inl hb
  · split at hb
    · exact Or.inl hb
    · rcases List.mem_append.mp hb with h | h
      · exact Or.inl h
      · have hb2 := filtrar_redundantes_mem _ b h
        rcases List.mem_append.mp hb2 with h2 | h2
        · rcases List.mem_append.mp h2 with h3 | h3
          · exact Or.inr (testar_combinacoes_phi _ _ _ b h3)
          · exact Or.inr (testar_combinacoes_phi _ _ _ b h3)
        · exact Or.inr (testar_combinacoes_phi _ _ _ b h2)

/-- C8: every rule produced by rule discovery has support ≥ 8 and hit rate
≥ 75, with tier Diamond at ≥ 90, Platinum at ≥ 85 and Gold otherwise;
the 10-record corpus sharing `perfil_arbitro = "Rigoroso"` with 8 hits
yields exactly the 1-factor Gold rule at 80%, and the 7-record corpus with
100% hits yields no rule. -/
theorem descobrir_regras_limiares :
    (∀ (registros : List RegistroAprendizado), ∀ r ∈ descobrir_regras registros,
      MIN_AMOSTRAS_REGRA ≤ r.total_amostras ∧ THRESHOLD_OURO ≤ r.taxa_acerto ∧
      r.nivel = (if THRESHOLD_DIAMANTE ≤ r.taxa_acerto then "Diamante"
        else if THRESHOLD_PLATINA ≤ r.taxa_acerto then "Platina" else "Ouro")) ∧
    descobrir_regras corpus10 = [regra_sintetica] ∧
    descobrir_regras corpus7 = [] :=
  ⟨fun registros r hr => (descobrir_regras_phi registros r hr).1,
    descobrir_corpus10_eq, descobrir_corpus7_eq⟩

/-- Witness for C8's universal part at the mined example rule. -/
theorem descobrir_regras_limiares_witness :
    MIN_AMOSTRAS_REGRA ≤ regra_sintetica.total_amostras ∧
    THRESHOLD_OURO ≤ regra_sintetica.taxa_acerto ∧
    regra_sintetica.nivel = (if THRESHOLD_DIAMANTE ≤ regra_sintetica.taxa_acerto then "Diamante"
      else if THRESHOLD_PLATINA ≤ regra_sintetica.taxa_acerto then "Platina" else "Ouro") :=
  descobrir_regras_limiares.1 corpus10 regra_sintetica
    (by rw [descobrir_corpus10_eq]; exact List.mem_singleton_self _)

/-- C10: no discovered rule ever conditions on `faixa_prob` — the factor is
in the candidate list but absent from the stored match snapshot, so every
record is skipped for combinations containing it. -/
theorem descobrir_regras_sem_faixa_prob (registros : List RegistroAprendizado)
    (r : RegraDeOuro) (hr : r ∈ descobrir_regras registros) :
    ∀ kv ∈ r.condicoes, kv.1 ≠ "faixa_prob" := by
  intro kv hkv heq
  obtain ⟨reg, hreg⟩ := (descobrir_regras_phi registros r hr).2 kv hkv
  rw [heq, fator_valor_faixa_prob] at hreg
  exact Option.noConfusion hreg

/-- Witness for C10 at the mined example rule and its only condition. -/
theorem descobrir_regras_sem_faixa_prob_witness :
    ("perfil_arbitro" : String) ≠ "faixa_prob" :=
  descobrir_regras_sem_faixa_prob corpus10 regra_sintetica
    (by rw [descobrir_corpus10_eq]; exact List.mem_singleton_self _)
    ("perfil_arbitro", "Rigoroso") (by simp [regra_sintetica])

/-! ## Claim C2: the direction of the subsumption test

Toolkit for association lists viewed as Python dicts (unique keys). -/

/-- A successful lookup means the key is present. -/
theorem lookup_some_mem_keys {α β : Type} [BEq α] [LawfulBEq α] :
    ∀ (l : List (α × β)) (k : α) (v : β), l.lookup k = some v →
      k ∈ l.map Prod.fst := by
  intro l
  induction l with
  | nil => intro k v h; simp [List.lookup] at h
  | cons e t ih =>
    intro k v h
    obtain ⟨k', v'⟩ := e
    by_cases hk : k = k'
    · subst hk
      exact List.mem_cons_self _ _
    · have hbe : (k == k') = false := beq_eq_false_iff_ne.mpr hk
      simp only [List.lookup, hbe] at h
      exact List.mem_cons_of_mem _ (ih k v h)

/-- A present key has a successful lookup. -/
theorem mem_keys_lookup_some {α β : Type} [BEq α] [LawfulBEq α] :
    ∀ (l : List (α × β)) (k : α), k ∈ l.map Prod.fst →
      ∃ v, l.lookup k = some v := by
  intro l
  induction l with
  | nil => intro k h; simp at h
  | cons e t ih =>
    intro k h
    obtain ⟨k', v'⟩ := e
    by_cases hk : k = k'
    · subst hk
      exact ⟨v', by simp [List.lookup]⟩
    · have hbe : (k == k') = false := beq_eq_false_iff_ne.mpr hk
      simp only [List.map_cons, List.mem_cons] at h
      rcases h with h | h
      · exact absurd h hk
      · obtain ⟨v, hv⟩ := ih k h
        exact ⟨v, by simp [List.lookup, hbe, hv]⟩

/-- With unique keys, membership determines the lookup result. -/
theorem lookup_of_mem_nodupkeys {α β : Type} [BEq α] [LawfulBEq α] :
    ∀ (l : List (α × β)) (k : α) (v : β), (l.map Prod.fst).Nodup →
      (k, v) ∈ l → l.lookup k = some v := by
  intro l
  induction l with
  | nil => intro k v _ h; simp at h
  | cons e t ih =>
    intro k v hnd h
    obtain ⟨k', v'⟩ := e
    rw [List.map_cons, List.nodup_cons] at hnd
    rcases List.mem_cons.mp h with h' | h'
    · injection h' with hk hv
      subst hk; subst hv
      simp [List.lookup]
    · have hk : k ≠ k' := by
        intro he
        subst he
        exact hnd.1 (List.mem_map.mpr ⟨(k, v), h', rfl⟩)
      have hbe : (k == k') = false := beq_eq_false_iff_ne.mpr hk
      simp only [List.lookup, hbe]
      exact ih k v hnd.2 h'

/-- A successful lookup exhibits a member. -/
theorem mem_of_lookup_eq_some {α β : Type} [BEq α] [LawfulBEq α] :
    ∀ (l : List (α × β)) (k : α) (v : β), l.lookup k = some v → (k, v) ∈ l := by
  intro l
  induction l with
  | nil => intro k v h; simp [List.lookup] at h
  | cons e t ih =>
    intro k v h
    obtain ⟨k', v'⟩ := e
    by_cases hk : k = k'
    · subst hk
      simp only [List.lookup, beq_self_eq_true, Option.some.injEq] at h
      subst h
      exact List.mem_cons_self _ _
    · have hbe : (k == k') = false := beq_eq_false_iff_ne.mpr hk
      simp only [List.lookup, hbe] at h
      exact List.mem_cons_of_mem _ (ih k v h)

/-- The dict-subset test, characterised entrywise. -/
theorem eh_subconjunto_iff (menor maior : List (String × String)) :
    eh_subconjunto menor maior = true ↔
      ∀ kv ∈ menor, maior.lookup kv.1 = some kv.2 := by
  unfold eh_subconjunto
  rw [List.all_eq_true]
  constructor
  · intro h kv hkv
    have h2 := h kv hkv
    cases hlk : maior.lookup kv.1 with
    | none => rw [hlk] at h2; exact absurd h2 (by simp)
    | some v =>
      rw [hlk] at h2
      simp only [beq_iff_eq] at h2
      rw [h2]
  · intro h kv hkv
    rw [h kv hkv]
    simp

/-- The keys of a dict-subset are a subset of the larger dict's keys. -/
theorem eh_subconjunto_keys_subset (menor maior : List (String × String))
    (h : eh_subconjunto menor maior = true) :
    menor.map Prod.fst ⊆ maior.map Prod.fst := by
  intro k hk
  obtain ⟨kv, hkv, hfst⟩ := List.mem_map.mp hk
  subst hfst
  exact lookup_some_mem_keys _ _ _ ((eh_subconjunto_iff _ _).mp h kv hkv)

/-- A dict-subset with unique keys is no longer than its superset. -/
theorem eh_subconjunto_length_le (menor maior : List (String × String))
    (hnd : (menor.map Prod.fst).Nodup) (h : eh_subconjunto menor maior = true) :
    menor.length ≤ maior.length := by
  have hle := (hnd.subperm (eh_subconjunto_keys_subset menor maior h)).length_le
  simpa using hle

/-- Two dicts with unique keys, one a subset of the other and no shorter,
are subsets in both directions. -/
theorem eh_subconjunto_antisymm (menor maior : List (String × String))
    (hm : (menor.map Prod.fst).Nodup) (hM : (maior.map Prod.fst).Nodup)
    (h : eh_subconjunto menor maior = true) (hlen : maior.length ≤ menor.length) :
    eh_subconjunto maior menor = true := by
  rw [eh_subconjunto_iff]
  intro kv hkv
  have hsub := eh_subconjunto_keys_subset menor maior h
  have hperm : List.Perm (menor.map Prod.fst) (maior.map Prod.fst) :=
    (hm.subperm hsub).perm_of_length_le (by simpa using hlen)
  have hkmem : kv.1 ∈ menor.map Prod.fst :=
    hperm.mem_iff.mpr (List.mem_map.mpr ⟨kv, hkv, rfl⟩)
  obtain ⟨w, hw⟩ := mem_keys_lookup_some menor kv.1 hkmem
  have hmem : (kv.1, w) ∈ menor := mem_of_lookup_eq_some _ _ _ hw
  have h1 : maior.lookup kv.1 = some w := (eh_subconjunto_iff _ _).mp h (kv.1, w) hmem
  have h2 : maior.lookup kv.1 = some kv.2 := lookup_of_mem_nodupkeys _ _ _ hM hkv
  rw [h1] at h2
  injection h2 with h2
  rw [← h2]
  exact hw

/-- Unfolding equation of the filter loop on a cons cell. -/
theorem filtrar_redundantes_aux_cons (acc : List RegraDeOuro) (x : RegraDeOuro)
    (t : List RegraDeOuro) :
    filtrar_redundantes_aux acc (x :: t) =
      if (acc.any fun aceita => eh_subconjunto x.condicoes aceita.condicoes) = true
      then filtrar_redundantes_aux acc t
      else filtrar_redundantes_aux (acc ++ [x]) t := rfl

/-- The filter loop extends its accumulator with a sublist of the input. -/
theorem filtrar_redundantes_aux_append :
    ∀ (l acc : List RegraDeOuro), ∃ s, filtrar_redundantes_aux acc l = acc ++ s ∧
      s.Sublist l := by
  intro l
  induction l with
  | nil => intro acc; exact ⟨[], by simp [filtrar_redundantes_aux], List.nil_sublist _⟩
  | cons x t ih =>
    intro acc
    unfold filtrar_redundantes_aux
    split
    · obtain ⟨s, hs, hsub⟩ := ih acc
      exact ⟨s, hs, hsub.cons x⟩
    · obtain ⟨s, hs, hsub⟩ := ih (acc ++ [x])
      refine ⟨x :: s, ?_, hsub.cons₂ x⟩
      rw [hs, List.append_assoc, List.singleton_append]

/-- A rule dropped by the filter loop has an accepted rule whose condition
set contains the dropped rule's own conditions. -/
theorem filtrar_redundantes_aux_descartada :
    ∀ (l acc : List RegraDeOuro), (acc ++ l).Nodup →
      ∀ r ∈ l, r ∉ filtrar_redundantes_aux acc l →
        ∃ a ∈ filtrar_redundantes_aux acc l, a ≠ r ∧
          eh_subconjunto r.condicoes a.condicoes = true := by
  intro l
  induction l with
  | nil => intro acc _ r h; simp at h
  | cons x t ih =>
    intro acc hnd r hr hout
    by_cases hany : (acc.any fun a => eh_subconjunto x.condicoes a.condicoes) = true
    · have hrw : filtrar_redundantes_aux acc (x :: t) = filtrar_redundantes_aux acc t := by
        rw [filtrar_redundantes_aux_cons, if_pos hany]
      rw [hrw] at hout ⊢
      rcases List.mem_cons.mp hr with rfl | hrt
      · obtain ⟨a, ha, hsuba⟩ := List.any_eq_true.mp hany
        obtain ⟨s, hs, -⟩ := filtrar_redundantes_aux_append t acc
        refine ⟨a, by rw [hs]; exact List.mem_append_left _ ha, ?_, hsuba⟩
        intro heq
        subst heq
        exact (List.nodup_append.mp hnd).2.2 ha (List.mem_cons_self _ _)
      · have hnd' : (acc ++ t).Nodup :=
          ((List.sublist_cons_self x t).append_left acc).nodup hnd
        exact ih acc hnd' r hrt hout
    · have hrw : filtrar_redundantes_aux acc (x :: t) =
          filtrar_redundantes_aux (acc ++ [x]) t := by
        rw [filtrar_redundantes_aux_cons, if_neg hany]
      rw [hrw] at hout ⊢
      rcases List.mem_cons.mp hr with rfl | hrt
      · obtain ⟨s, hs, -⟩ := filtrar_redundantes_aux_append t (acc ++ [r])
        exact absurd (by
          rw [hs]
          exact List.mem_append_left _ (List.mem_append_right _ (List.mem_singleton_self _)))
          hout
      · have hnd' : ((acc ++ [x]) ++ t).Nodup := by
          rw [List.append_assoc, List.singleton_append]
          exact hnd
        exact ih (acc ++ [x]) hnd' r hrt hout

/-- No accepted rule's condition set contains a later-accepted rule's. -/
theorem filtrar_redundantes_aux_pairwise_nosub :
    ∀ (l acc : List RegraDeOuro),
      acc.Pairwise (fun a b => eh_subconjunto b.condicoes a.condicoes = false) →
      (filtrar_redundantes_aux acc l).Pairwise
        (fun a b => eh_subconjunto b.condicoes a.condicoes = false) := by
  intro l
  induction l with
  | nil => intro acc h; exact h
  | cons x t ih =>
    intro acc h
    rw [filtrar_redundantes_aux_cons]
    split
    · exact ih acc h
    · rename_i hany
      refine ih (acc ++ [x]) ?_
      rw [List.pairwise_append]
      refine ⟨h, List.pairwise_singleton _ _, ?_⟩
      intro a ha b hb
      rw [List.mem_singleton] at hb
      subst hb
      have hfalse := List.any_eq_false.mp (Bool.eq_false_iff.mpr hany) a ha
      exact Bool.eq_false_iff.mpr hfalse

/-- The filter loop propagates any pairwise relation that already holds on
the accumulator, the input and across them. -/
theorem filtrar_redundantes_aux_pairwise_rel (R : RegraDeOuro → RegraDeOuro → Prop) :
    ∀ (l acc : List RegraDeOuro), acc.Pairwise R → l.Pairwise R →
      (∀ a ∈ acc, ∀ b ∈ l, R a b) →
      (filtrar_redundantes_aux acc l).Pairwise R := by
  intro l
  induction l with
  | nil => intro acc hacc _ _; exact hacc
  | cons x t ih =>
    intro acc hacc hl hcross
    rw [filtrar_redundantes_aux_cons]
    split
    · exact ih acc hacc (List.pairwise_cons.mp hl).2
        (fun a ha b hb => hcross a ha b (List.mem_cons_of_mem _ hb))
    · refine ih (acc ++ [x]) ?_ (List.pairwise_cons.mp hl).2 ?_
      · rw [List.pairwise_append]
        refine ⟨hacc, List.pairwise_singleton _ _, ?_⟩
        intro a ha b hb
        rw [List.mem_singleton] at hb
        subst hb
        exact hcross a ha b (List.mem_cons_self _ _)
      · intro a ha b hb
        rcases List.mem_append.mp ha with h' | h'
        · exact hcross a h' b (List.mem_cons_of_mem _ hb)
        · rw [List.mem_singleton] at h'
          subst h'
          exact (List.pairwise_cons.mp hl).1 b hb

/-- Distinct members of a pairwise-related list are related one way or the
other. -/
theorem pairwise_of_mem_ne {α : Type} {Q : α → α → Prop} :
    ∀ {l : List α}, l.Pairwise Q → ∀ {a b : α}, a ∈ l → b ∈ l → a ≠ b →
      Q a b ∨ Q b a := by
  intro l
  induction l with
  | nil => intro _ a b ha; simp at ha
  | cons x t ih =>
    intro hp a b ha hb hne
    rcases List.mem_cons.mp ha with rfl | ha'
    · rcases List.mem_cons.mp hb with rfl | hb'
      · exact absurd rfl hne
      · exact Or.inl ((List.pairwise_cons.mp hp).1 b hb')
    · rcases List.mem_cons.mp hb with rfl | hb'
      · exact Or.inr ((List.pairwise_cons.mp hp).1 a ha')
      · exact ih (List.pairwise_cons.mp hp).2 ha' hb' hne

/-- C2 amended: after sorting by descending condition count, a rule is
discarded if and only if some accepted rule's condition set is a
*superset* of the discarded rule's own conditions (the discarded rule's
set is a subset of an accepted, at-least-as-specific rule's) — the reverse
of the claimed direction.  Stated for candidate lists without duplicate
rules whose condition dicts have unique keys, as the miner produces. -/
theorem filtrar_redundantes_subsumido_por_aceita (regras : List RegraDeOuro)
    (hnd : regras.Nodup)
    (hkeys : ∀ r ∈ regras, (r.condicoes.map Prod.fst).Nodup) :
    ∀ r ∈ regras,
      (r ∉ filtrar_redundantes regras ↔
        ∃ a ∈ filtrar_redundantes regras, a ≠ r ∧
          eh_subconjunto r.condicoes a.condicoes = true) := by
  intro r hr
  cases hre : regras with
  | nil => rw [hre] at hr; simp at hr
  | cons x t =>
    subst hre
    have hfil : filtrar_redundantes (x :: t) =
        filtrar_redundantes_aux [] ((x :: t).insertionSort regra_espec_le) := rfl
    have hperm := List.perm_insertionSort regra_espec_le (x :: t)
    have hLnd : ((x :: t).insertionSort regra_espec_le).Nodup := hperm.nodup_iff.mpr hnd
    have hrL : r ∈ (x :: t).insertionSort regra_espec_le := hperm.mem_iff.mpr hr
    rw [hfil]
    constructor
    · intro hout
      exact filtrar_redundantes_aux_descartada _ [] (by simpa using hLnd) r hrL hout
    · rintro ⟨a, haout, hane, hsuba⟩ hrout
      obtain ⟨s, hs, hssub⟩ :=
        filtrar_redundantes_aux_append ((x :: t).insertionSort regra_espec_le) []
      have haL : a ∈ (x :: t).insertionSort regra_espec_le := by
        rw [hs] at haout
        exact hssub.subset (by simpa using haout)
      have haR : a ∈ x :: t := hperm.mem_iff.mp haL
      have hp1 := filtrar_redundantes_aux_pairwise_nosub
        ((x :: t).insertionSort regra_espec_le) [] List.Pairwise.nil
      have hp2 := filtrar_redundantes_aux_pairwise_rel regra_espec_le
        ((x :: t).insertionSort regra_espec_le) [] List.Pairwise.nil
        (List.sorted_insertionSort regra_espec_le (x :: t)) (by simp)
      rcases pairwise_of_mem_ne (hp1.and hp2) haout hrout hane with ⟨hq1, _⟩ | ⟨hq1, hq2⟩
      · rw [hq1] at hsuba
        exact Bool.noConfusion hsuba
      · have hback : eh_subconjunto a.condicoes r.condicoes = true :=
          eh_subconjunto_antisymm _ _ (hkeys r hr) (hkeys a haR) hsuba hq2
        rw [hq1] at hback
        exact Bool.noConfusion hback

unseal Rat.add Rat.mul Rat.inv Rat.sub in
/-- Witness for C2 amended at the concrete pair [A, B]. -/
theorem filtrar_redundantes_subsumido_por_aceita_witness :
    regraA ∉ filtrar_redundantes [regraA, regraB] ↔
      ∃ a ∈ filtrar_redundantes [regraA, regraB], a ≠ regraA ∧
        eh_subconjunto regraA.condicoes a.condicoes = true :=
  filtrar_redundantes_subsumido_por_aceita [regraA, regraB] (by decide) (by decide)
    regraA (by decide)

end RefStats
